import Mathlib

/-!
Shallow embedding of the quantum-random-walk decision engine
(`src/utils/quantum_math.py`) and proofs about the properties its
specification states.

Randomness and wall-clock effects of the Python code are made explicit:
every pseudo-random draw and every clock reading becomes an explicit real
argument of the embedded function.  Python floats are modelled by real
numbers; Python `complex` by `ℂ`.
-/

noncomputable section

/-- Python `QuantumState` enum from the source. -/
inductive QuantumState where
  | SUPERPOSITION
  | LEFT_COLLAPSED
  | RIGHT_COLLAPSED
  | ENTANGLED
deriving DecidableEq, Repr

/-- Python `QuantumWavefunction`: the two complex amplitudes `alpha`, `beta`. -/
structure QuantumWavefunction where
  alpha : ℂ
  beta : ℂ

namespace QuantumWavefunction

/-- Python `normalize`: divide both amplitudes by `sqrt(|alpha|^2+|beta|^2)`,
skipped when that norm is not positive. -/
def normalize (w : QuantumWavefunction) : QuantumWavefunction :=
  if 0 < Real.sqrt (Complex.abs w.alpha ^ 2 + Complex.abs w.beta ^ 2) then
    ⟨w.alpha / ((Real.sqrt (Complex.abs w.alpha ^ 2 + Complex.abs w.beta ^ 2) : ℝ) : ℂ),
     w.beta / ((Real.sqrt (Complex.abs w.alpha ^ 2 + Complex.abs w.beta ^ 2) : ℝ) : ℂ)⟩
  else w

/-- The constructor `QuantumWavefunction(alpha, beta)`: store then normalize. -/
def create (alpha beta : ℂ) : QuantumWavefunction :=
  normalize ⟨alpha, beta⟩

/-- Python `get_probabilities`: `(|alpha|^2, |beta|^2)`. -/
def get_probabilities (w : QuantumWavefunction) : ℝ × ℝ :=
  (Complex.abs w.alpha ^ 2, Complex.abs w.beta ^ 2)

/-- Python `collapse`, with the pseudo-random draw `r` (Python `_quantum_random()`)
made an explicit argument: LEFT and amplitudes `(1,0)` when
`r < left_prob`, else RIGHT and `(0,1)`. -/
def collapse (w : QuantumWavefunction) (r : ℝ) : String × QuantumWavefunction :=
  if r < (get_probabilities w).1 then ("LEFT", ⟨1, 0⟩) else ("RIGHT", ⟨0, 1⟩)

/-- Python `apply_decoherence(decoherence_rate, dt)`, with the uniform draw `rnd`
of `random.random()` explicit: both amplitudes are multiplied by the same
phase factor `exp(i·(2π·rnd·rate·dt))` and decay factor `exp(-rate·dt)`,
then the pair is renormalized. -/
def apply_decoherence (w : QuantumWavefunction) (rate dt rnd : ℝ) :
    QuantumWavefunction :=
  let decay : ℝ := Real.exp (-(rate * dt))
  let phase : ℝ := 2 * Real.pi * rnd * rate * dt
  normalize ⟨w.alpha * (Complex.exp ((phase : ℂ) * Complex.I) * (decay : ℂ)),
             w.beta * (Complex.exp ((phase : ℂ) * Complex.I) * (decay : ℂ))⟩

end QuantumWavefunction

/-- Python `QuantumDecision` record. -/
structure QuantumDecision where
  direction : String
  probability : ℝ
  amplitude_left : ℂ
  amplitude_right : ℂ
  entropy : ℝ
  coherence : ℝ
  timestamp : ℝ

/-- Python `QuantumWalkSimulator` state. -/
structure QuantumWalkSimulator where
  wavefunction : QuantumWavefunction
  current_state : QuantumState
  decision_history : List QuantumDecision
  entropy_history : List ℝ
  coherence_history : List ℝ
  decoherence_rate : ℝ
  coherence_time : ℝ
  noise_level : ℝ
  last_decision_time : ℝ
  total_decisions : ℕ

namespace QuantumWalkSimulator

/-- The `QuantumWalkSimulator()` constructor. -/
def new : QuantumWalkSimulator where
  wavefunction := QuantumWavefunction.create (707 / 1000) (707 / 1000)
  current_state := .SUPERPOSITION
  decision_history := []
  entropy_history := []
  coherence_history := []
  decoherence_rate := 1 / 10
  coherence_time := 1
  noise_level := 1 / 10
  last_decision_time := 0
  total_decisions := 0

/-- The engine configuration method (Python name starts with `initialize`):
sets the amplitudes from the two real magnitudes and normalizes, stores
`coherence_time` and `noise_level`, sets
`decoherence_rate = 1/coherence_time` when `coherence_time > 0` and `0`
otherwise, resets the state tag and clears all three histories.
No input validation is performed and no error can be raised. -/
def configure (sim : QuantumWalkSimulator)
    (left_amplitude right_amplitude coherence_time noise_level : ℝ) :
    QuantumWalkSimulator :=
  { sim with
    wavefunction :=
      QuantumWavefunction.normalize ⟨(left_amplitude : ℂ), (right_amplitude : ℂ)⟩
    coherence_time := coherence_time
    noise_level := noise_level
    decoherence_rate := if 0 < coherence_time then 1 / coherence_time else 0
    current_state := .SUPERPOSITION
    decision_history := []
    entropy_history := []
    coherence_history := [] }

/-- Python `calculate_entropy`: Shannon entropy of `get_probabilities`, each term
guarded by a positivity test. -/
def calculate_entropy (sim : QuantumWalkSimulator) : ℝ :=
  let p := sim.wavefunction.get_probabilities
  (if 0 < p.1 then -(p.1 * Real.logb 2 p.1) else 0) +
    (if 0 < p.2 then -(p.2 * Real.logb 2 p.2) else 0)

/-- Python `calculate_coherence`: `|conjugate(alpha)·beta|`. -/
def calculate_coherence (sim : QuantumWalkSimulator) : ℝ :=
  Complex.abs ((starRingEnd ℂ) sim.wavefunction.alpha * sim.wavefunction.beta)

/-- Python `reset_to_superposition`: directly assigns amplitudes `(0.707, 0.707)`
(without any normalize call) and the SUPERPOSITION tag. -/
def reset_to_superposition (sim : QuantumWalkSimulator) : QuantumWalkSimulator :=
  { sim with
    wavefunction := ⟨(707 / 1000 : ℂ), (707 / 1000 : ℂ)⟩
    current_state := .SUPERPOSITION }

/-- Python `update_histories`: append current entropy and coherence, then drop the
oldest entry of a history whose length exceeds 1000. -/
def update_histories (sim : QuantumWalkSimulator) : QuantumWalkSimulator :=
  let e := sim.entropy_history ++ [sim.calculate_entropy]
  let c := sim.coherence_history ++ [sim.calculate_coherence]
  { sim with
    entropy_history := if 1000 < e.length then e.tail else e
    coherence_history := if 1000 < c.length then c.tail else c }

/-- Python `evolve_quantum_state(dt)`, with the decoherence phase draw `rnd` and
the four Gaussian draws (`random.gauss` values for the real and imaginary
parts of each amplitude's noise) explicit: decoherence, then — only when
`noise_level > 0` — additive noise followed by a renormalize. -/
def evolve_quantum_state (sim : QuantumWalkSimulator)
    (dt rnd ga gai gb gbi : ℝ) : QuantumWalkSimulator :=
  let w1 := sim.wavefunction.apply_decoherence sim.decoherence_rate dt rnd
  if 0 < sim.noise_level then
    { sim with
      wavefunction :=
        QuantumWavefunction.normalize
          ⟨w1.alpha + ⟨ga, gai⟩, w1.beta + ⟨gb, gbi⟩⟩ }
  else
    { sim with wavefunction := w1 }

/-- Python `step()`: the Python method takes no time-step argument; it reads the
wall clock (`time.time()`, here the explicit argument `current_time`),
and only when `last_decision_time > 0` evolves the state over the measured
difference and updates the histories; it always records the clock reading. -/
def step (sim : QuantumWalkSimulator)
    (current_time rnd ga gai gb gbi : ℝ) : QuantumWalkSimulator :=
  if 0 < sim.last_decision_time then
    let dt := current_time - sim.last_decision_time
    let s1 := sim.evolve_quantum_state dt rnd ga gai gb gbi
    let s2 := s1.update_histories
    { s2 with last_decision_time := current_time }
  else
    { sim with last_decision_time := current_time }

/-- Python `make_quantum_decision()`, with the collapse draw `r` and the wall-clock
timestamp `t` explicit: snapshot probabilities, entropy and coherence,
collapse, build the decision record (probability of the chosen side,
post-collapse amplitudes), tag the collapsed state, append to
`decision_history`, bump `total_decisions`, then reset to superposition. -/
def make_quantum_decision (sim : QuantumWalkSimulator) (r t : ℝ) :
    QuantumDecision × QuantumWalkSimulator :=
  let p := sim.wavefunction.get_probabilities
  let entropy := sim.calculate_entropy
  let coherence := sim.calculate_coherence
  let collapsed := sim.wavefunction.collapse r
  let decision : QuantumDecision :=
    { direction := collapsed.1
      probability := if collapsed.1 = "LEFT" then p.1 else p.2
      amplitude_left := collapsed.2.alpha
      amplitude_right := collapsed.2.beta
      entropy := entropy
      coherence := coherence
      timestamp := t }
  let s1 : QuantumWalkSimulator :=
    { sim with
      wavefunction := collapsed.2
      current_state :=
        if collapsed.1 = "LEFT" then .LEFT_COLLAPSED else .RIGHT_COLLAPSED
      decision_history := sim.decision_history ++ [decision]
      total_decisions := sim.total_decisions + 1 }
  (decision, s1.reset_to_superposition)

end QuantumWalkSimulator

/-- Iterated decision making with fixed draw `0` and timestamp `0`:
`n` successive `make_quantum_decision` calls. -/
def iterateDecisions : ℕ → QuantumWalkSimulator → QuantumWalkSimulator
  | 0, sim => sim
  | n + 1, sim => iterateDecisions n (sim.make_quantum_decision 0 0).2

/-- Python `math.erf`, the Gauss error function used by the analyzer's normal CDF. -/
def errorFunction (x : ℝ) : ℝ :=
  (2 / Real.sqrt Real.pi) * ∫ t in (0 : ℝ)..x, Real.exp (-(t ^ 2))

/-- Result of the runs test: the Python method returns dictionaries with
different keys per branch, modelled as a sum type.  In the `stats` case the
`result` string is `"random"` or `"non_random"`. -/
inductive RunsTestResult where
  | insufficient_data
  | degenerate
  | stats (runs_observed : ℕ) (runs_expected z_statistic p_value : ℝ)
      (result : String)

/-- The `runs_observed` entry of a runs-test report, when present. -/
def RunsTestResult.observed : RunsTestResult → Option ℕ
  | .stats r _ _ _ _ => some r
  | _ => none

/-- The `runs_expected` entry of a runs-test report, when present. -/
def RunsTestResult.expectedRuns : RunsTestResult → Option ℝ
  | .stats _ e _ _ _ => some e
  | _ => none

/-- Result of the frequency test. -/
inductive FrequencyTestResult where
  | insufficient_data
  | stats (proportion_ones expected_proportion z_statistic p_value : ℝ)
      (result : String)

/-- Result of the autocorrelation test. -/
inductive AutocorrelationTestResult where
  | insufficient_data
  | stats (autocorrelations : List ℝ) (max_autocorrelation : ℝ)
      (result : String)

/-- The full randomness-quality report (the keys of the dictionary the
Python method builds for a sufficiently long input). -/
structure AnalysisReport where
  sequence_length : ℕ
  runs_test : RunsTestResult
  frequency_test : FrequencyTestResult
  autocorrelation : AutocorrelationTestResult
  entropy_rate : ℝ

namespace QuantumStateAnalyzer

/-- Python `_standard_normal_cdf`: `0.5·(1 + erf(x/√2))`. -/
def standard_normal_cdf (x : ℝ) : ℝ :=
  1 / 2 * (1 + errorFunction (x / Real.sqrt 2))

/-- Number of positions where the sequence changes value (the loop that
increments `runs` whenever `sequence[i] != sequence[i-1]`). -/
def adjacentChanges : List ℤ → ℕ
  | a :: b :: l => (if a = b then 0 else 1) + adjacentChanges (b :: l)
  | _ => 0

/-- Python `_runs_test`. -/
def runs_test (sequence : List ℤ) : RunsTestResult :=
  let n := sequence.length
  if n < 2 then .insufficient_data
  else
    let runs : ℕ := 1 + adjacentChanges sequence
    let ones : ℤ := sequence.sum
    let zeros : ℤ := (n : ℤ) - ones
    if ones = 0 ∨ zeros = 0 then .degenerate
    else
      let nR : ℝ := (n : ℝ)
      let onesR : ℝ := (ones : ℝ)
      let zerosR : ℝ := (zeros : ℝ)
      let expected : ℝ := 2 * onesR * zerosR / nR + 1
      let variance : ℝ :=
        2 * onesR * zerosR * (2 * onesR * zerosR - nR) / (nR * nR * (nR - 1))
      let zp : ℝ × ℝ :=
        if 0 < variance then
          let z := ((runs : ℝ) - expected) / Real.sqrt variance
          (z, 2 * (1 - standard_normal_cdf |z|))
        else (0, 1)
      .stats runs expected zp.1 zp.2
        (if 1 / 20 < zp.2 then "random" else "non_random")

/-- Python `_frequency_test`. -/
def frequency_test (sequence : List ℤ) : FrequencyTestResult :=
  let n := sequence.length
  if n = 0 then .insufficient_data
  else
    let proportion : ℝ := (sequence.sum : ℝ) / (n : ℝ)
    let expected : ℝ := 1 / 2
    let z : ℝ := (proportion - expected) / Real.sqrt (expected * (1 - expected) / (n : ℝ))
    let p : ℝ := 2 * (1 - standard_normal_cdf |z|)
    .stats proportion expected z p (if 1 / 20 < p then "random" else "biased")

/-- Python `_autocorrelation_test` with its default `max_lag = 10`.  The Python
maximum over absolute autocorrelations (with fallback `0` for an empty
list) is folded with `max` from `0`, which agrees since every `|ac|` is
nonnegative. -/
def autocorrelation_test (sequence : List ℤ) (max_lag : ℕ := 10) :
    AutocorrelationTestResult :=
  let n := sequence.length
  if n < max_lag * 2 then .insufficient_data
  else
    let mean : ℝ := (sequence.sum : ℝ) / (n : ℝ)
    let centered : List ℝ := sequence.map (fun x => (x : ℝ) - mean)
    let denominator : ℝ := (centered.map (fun x => x * x)).sum
    let lags : List ℕ := List.range' 1 (min (max_lag + 1) (n / 2) - 1)
    let autocorrs : List ℝ := lags.map (fun lag =>
      let numerator : ℝ :=
        ((centered.zip (centered.drop lag)).map (fun p => p.1 * p.2)).sum
      if 0 < denominator then numerator / denominator else 0)
    let maxAuto : ℝ := (autocorrs.map (fun ac => |ac|)).foldr max 0
    .stats autocorrs maxAuto (if maxAuto < 1 / 5 then "random" else "correlated")

/-- Python `_entropy_rate`: empirical bigram entropy in bits. -/
def entropy_rate (sequence : List ℤ) : ℝ :=
  if sequence.length < 2 then 0
  else
    let bigrams := sequence.zip sequence.tail
    let total : ℝ := ((sequence.length : ℝ) - 1)
    (bigrams.dedup.map (fun g =>
      let count : ℕ := bigrams.count g
      if 0 < count then
        -(((count : ℝ) / total) * Real.logb 2 ((count : ℝ) / total))
      else 0)).sum

/-- Python `analyze_randomness_quality`: the empty dictionary returned for fewer
than two decisions is modelled as `none`. -/
def analyze_randomness_quality (decisions : List QuantumDecision) :
    Option AnalysisReport :=
  if decisions.length < 2 then none
  else
    let binary : List ℤ :=
      decisions.map (fun d => if d.direction = "LEFT" then 1 else 0)
    some
      { sequence_length := binary.length
        runs_test := runs_test binary
        frequency_test := frequency_test binary
        autocorrelation := autocorrelation_test binary
        entropy_rate := entropy_rate binary }

end QuantumStateAnalyzer

/-- Whether a runs-test report is the degenerate verdict. -/
def RunsTestResult.isDegenerate : RunsTestResult → Bool
  | .degenerate => true
  | _ => false

/-- The alternating binary sequence `[1,0]*10` (length 20) of Scenario D. -/
def alternatingTwenty : List ℤ :=
  [1, 0, 1, 0, 1, 0, 1, 0, 1, 0, 1, 0, 1, 0, 1, 0, 1, 0, 1, 0]

namespace QuantumWavefunction

/-- The squared norm of a pair that is not identically zero is positive. -/
lemma sumSq_pos (w : QuantumWavefunction) (h : ¬(w.alpha = 0 ∧ w.beta = 0)) :
    0 < Complex.abs w.alpha ^ 2 + Complex.abs w.beta ^ 2 := by
  rcases not_and_or.mp h with h | h
  · exact add_pos_of_pos_of_nonneg
      (pow_pos (AbsoluteValue.pos Complex.abs h) 2) (sq_nonneg _)
  · exact add_pos_of_nonneg_of_pos (sq_nonneg _)
      (pow_pos (AbsoluteValue.pos Complex.abs h) 2)

/-- Python `normalize` is a no-op on the zero pair. -/
lemma normalize_of_zero (w : QuantumWavefunction)
    (h1 : w.alpha = 0) (h2 : w.beta = 0) : w.normalize = w := by
  unfold normalize
  rw [if_neg]
  simp [h1, h2]

/-- Python `normalize` on a not-both-zero pair divides by the positive norm. -/
lemma normalize_of_ne (w : QuantumWavefunction) (h : ¬(w.alpha = 0 ∧ w.beta = 0)) :
    w.normalize =
      ⟨w.alpha / ((Real.sqrt (Complex.abs w.alpha ^ 2 + Complex.abs w.beta ^ 2) : ℝ) : ℂ),
       w.beta / ((Real.sqrt (Complex.abs w.alpha ^ 2 + Complex.abs w.beta ^ 2) : ℝ) : ℂ)⟩ := by
  unfold normalize
  rw [if_pos (Real.sqrt_pos.mpr (w.sumSq_pos h))]

/-- Measurement probabilities of a normalized, not-both-zero pair: each
squared magnitude divided by the squared norm. -/
lemma get_probabilities_normalize (w : QuantumWavefunction)
    (h : ¬(w.alpha = 0 ∧ w.beta = 0)) :
    w.normalize.get_probabilities =
      (Complex.abs w.alpha ^ 2 / (Complex.abs w.alpha ^ 2 + Complex.abs w.beta ^ 2),
       Complex.abs w.beta ^ 2 / (Complex.abs w.alpha ^ 2 + Complex.abs w.beta ^ 2)) := by
  have hs : 0 < Complex.abs w.alpha ^ 2 + Complex.abs w.beta ^ 2 := w.sumSq_pos h
  rw [normalize_of_ne w h]
  unfold get_probabilities
  simp only [map_div₀, Complex.abs_ofReal, div_pow, sq_abs,
    Real.sq_sqrt hs.le]

/-- After `normalize` on a not-both-zero pair the probabilities sum to `1`. -/
lemma sum_probs_normalize (w : QuantumWavefunction)
    (h : ¬(w.alpha = 0 ∧ w.beta = 0)) :
    w.normalize.get_probabilities.1 + w.normalize.get_probabilities.2 = 1 := by
  have hs : 0 < Complex.abs w.alpha ^ 2 + Complex.abs w.beta ^ 2 := w.sumSq_pos h
  rw [get_probabilities_normalize w h]
  rw [div_add_div_same, div_self hs.ne']

end QuantumWavefunction

namespace QuantumWavefunction

/-- The decoherence factor has absolute value `exp(-rate·dt)`. -/
lemma abs_decoherence_factor (rate dt rnd : ℝ) :
    Complex.abs
        (Complex.exp (((2 * Real.pi * rnd * rate * dt : ℝ) : ℂ) * Complex.I) *
          ((Real.exp (-(rate * dt)) : ℝ) : ℂ)) =
      Real.exp (-(rate * dt)) := by
  rw [map_mul, Complex.abs_exp_ofReal_mul_I, Complex.abs_ofReal, one_mul,
    abs_of_pos (Real.exp_pos _)]

/-- On a pair with unit probability mass, `apply_decoherence` preserves
`get_probabilities` whatever the rate, time step and phase draw are: both
amplitudes are scaled by the same factor of magnitude `exp(-rate·dt) > 0`
and the pair is then renormalized. -/
lemma get_probabilities_apply_decoherence (w : QuantumWavefunction)
    (rate dt rnd : ℝ)
    (h : w.get_probabilities.1 + w.get_probabilities.2 = 1) :
    (w.apply_decoherence rate dt rnd).get_probabilities = w.get_probabilities := by
  have hd : (0 : ℝ) < Real.exp (-(rate * dt)) := Real.exp_pos _
  have hsum : Complex.abs w.alpha ^ 2 + Complex.abs w.beta ^ 2 = 1 := h
  have habs := abs_decoherence_factor rate dt rnd
  have hfne :
      Complex.exp (((2 * Real.pi * rnd * rate * dt : ℝ) : ℂ) * Complex.I) *
        ((Real.exp (-(rate * dt)) : ℝ) : ℂ) ≠ 0 := by
    intro h0
    rw [h0, map_zero] at habs
    exact hd.ne habs
  have hunfold : w.apply_decoherence rate dt rnd =
      QuantumWavefunction.normalize
        ⟨w.alpha *
          (Complex.exp (((2 * Real.pi * rnd * rate * dt : ℝ) : ℂ) * Complex.I) *
            ((Real.exp (-(rate * dt)) : ℝ) : ℂ)),
         w.beta *
          (Complex.exp (((2 * Real.pi * rnd * rate * dt : ℝ) : ℂ) * Complex.I) *
            ((Real.exp (-(rate * dt)) : ℝ) : ℂ))⟩ := rfl
  have hne :
      ¬(w.alpha *
          (Complex.exp (((2 * Real.pi * rnd * rate * dt : ℝ) : ℂ) * Complex.I) *
            ((Real.exp (-(rate * dt)) : ℝ) : ℂ)) = 0 ∧
        w.beta *
          (Complex.exp (((2 * Real.pi * rnd * rate * dt : ℝ) : ℂ) * Complex.I) *
            ((Real.exp (-(rate * dt)) : ℝ) : ℂ)) = 0) := by
    rintro ⟨h1, h2⟩
    have hα : w.alpha = 0 := (mul_eq_zero.mp h1).resolve_right hfne
    have hβ : w.beta = 0 := (mul_eq_zero.mp h2).resolve_right hfne
    rw [hα, hβ] at hsum
    norm_num at hsum
  rw [hunfold, get_probabilities_normalize _ hne]
  have ha :
      Complex.abs
          (w.alpha *
            (Complex.exp (((2 * Real.pi * rnd * rate * dt : ℝ) : ℂ) * Complex.I) *
              ((Real.exp (-(rate * dt)) : ℝ) : ℂ))) =
        Complex.abs w.alpha * Real.exp (-(rate * dt)) := by
    rw [map_mul, habs]
  have hb :
      Complex.abs
          (w.beta *
            (Complex.exp (((2 * Real.pi * rnd * rate * dt : ℝ) : ℂ) * Complex.I) *
              ((Real.exp (-(rate * dt)) : ℝ) : ℂ))) =
        Complex.abs w.beta * Real.exp (-(rate * dt)) := by
    rw [map_mul, habs]
  simp only [ha, hb]
  have hden :
      (Complex.abs w.alpha * Real.exp (-(rate * dt))) ^ 2 +
        (Complex.abs w.beta * Real.exp (-(rate * dt))) ^ 2 =
      Real.exp (-(rate * dt)) ^ 2 := by
    rw [mul_pow, mul_pow, ← add_mul, hsum, one_mul]
  rw [hden]
  unfold get_probabilities
  have hd2 : Real.exp (-(rate * dt)) ^ 2 ≠ 0 := pow_ne_zero 2 hd.ne'
  simp only [Prod.mk.injEq]
  constructor
  · rw [mul_pow, mul_div_assoc, div_self hd2, mul_one]
  · rw [mul_pow, mul_div_assoc, div_self hd2, mul_one]

end QuantumWavefunction

namespace QuantumWalkSimulator

/-- The engine's coherence is the product of the amplitude magnitudes. -/
lemma calculate_coherence_eq (sim : QuantumWalkSimulator) :
    sim.calculate_coherence =
      Complex.abs sim.wavefunction.alpha * Complex.abs sim.wavefunction.beta := by
  unfold calculate_coherence
  rw [map_mul, Complex.abs_conj]

end QuantumWalkSimulator

/-- The complex literal `0.707` has absolute value `0.707`. -/
lemma abs_seven_zero_seven : Complex.abs ((707 / 1000 : ℂ)) = 707 / 1000 := by
  rw [show ((707 / 1000 : ℂ)) = (((707 / 1000 : ℝ) : ℂ)) by push_cast; ring]
  rw [Complex.abs_ofReal, abs_of_pos (by norm_num : (0 : ℝ) < 707 / 1000)]

/-- C2: `collapse` returns LEFT exactly when the draw `r` is below the left
probability and RIGHT otherwise, always sets the chosen amplitude to `1+0i`
and the other to `0+0i` (so exactly one magnitude is `1`, the other `0`),
and after configuring with amplitudes `(1.0, 0.0)`, coherence time `1.0`
and noise level `0`, the probabilities are `(1.0, 0.0)` and collapse
returns LEFT for every draw in `[0, 1)`. -/
theorem C2_collapse_behaviour (w : QuantumWavefunction) (r : ℝ)
    (h0 : 0 ≤ r) (h1 : r < 1) :
    ((w.collapse r).1 = "LEFT" ↔ r < w.get_probabilities.1) ∧
    ((w.collapse r).2 = ⟨1, 0⟩ ∨ (w.collapse r).2 = ⟨0, 1⟩) ∧
    ((Complex.abs (w.collapse r).2.alpha = 1 ∧ Complex.abs (w.collapse r).2.beta = 0) ∨
      (Complex.abs (w.collapse r).2.alpha = 0 ∧ Complex.abs (w.collapse r).2.beta = 1)) ∧
    ((QuantumWalkSimulator.new.configure 1 0 1 0).wavefunction.get_probabilities = (1, 0) ∧
      ((QuantumWalkSimulator.new.configure 1 0 1 0).wavefunction.collapse r).1 = "LEFT") := by
  have hprobs :
      (QuantumWalkSimulator.new.configure 1 0 1 0).wavefunction.get_probabilities = (1, 0) := by
    show (QuantumWavefunction.normalize ⟨((1 : ℝ) : ℂ), ((0 : ℝ) : ℂ)⟩).get_probabilities = (1, 0)
    rw [QuantumWavefunction.get_probabilities_normalize _ (by simp)]
    simp
  refine ⟨?_, ?_, ?_, hprobs, ?_⟩
  · unfold QuantumWavefunction.collapse
    by_cases hr : r < w.get_probabilities.1
    · simp [hr]
    · simp [hr]
  · unfold QuantumWavefunction.collapse
    by_cases hr : r < w.get_probabilities.1
    · exact Or.inl (by rw [if_pos hr])
    · exact Or.inr (by rw [if_neg hr])
  · unfold QuantumWavefunction.collapse
    by_cases hr : r < w.get_probabilities.1
    · rw [if_pos hr]
      exact Or.inl (by simp)
    · rw [if_neg hr]
      exact Or.inr (by simp)
  · unfold QuantumWavefunction.collapse
    rw [hprobs]
    simp [h1]

/-- C2 witness: with the concrete draw `1/2` on the engine configured with
amplitudes `(1, 0)`, collapse returns LEFT. -/
theorem C2_collapse_behaviour_witness :
    (0 : ℝ) ≤ 1 / 2 ∧ (1 / 2 : ℝ) < 1 ∧
      ((QuantumWalkSimulator.new.configure 1 0 1 0).wavefunction.collapse (1 / 2)).1 = "LEFT" :=
  ⟨by norm_num, by norm_num,
    (C2_collapse_behaviour (QuantumWalkSimulator.new.configure 1 0 1 0).wavefunction
      (1 / 2) (by norm_num) (by norm_num)).2.2.2.2⟩

/-- C3: `make_quantum_decision` records the pre-collapse probability of the
chosen direction and the pre-collapse entropy and coherence, appends the
decision to the history, and before returning resets the amplitude pair to
the fixed value `(0.707, 0.707)` and the state tag to SUPERPOSITION. -/
theorem C3_decision_snapshot_and_reset (sim : QuantumWalkSimulator) (r t : ℝ) :
    ((sim.make_quantum_decision r t).1).probability =
      (if ((sim.make_quantum_decision r t).1).direction = "LEFT"
        then sim.wavefunction.get_probabilities.1
        else sim.wavefunction.get_probabilities.2) ∧
    ((sim.make_quantum_decision r t).1).entropy = sim.calculate_entropy ∧
    ((sim.make_quantum_decision r t).1).coherence = sim.calculate_coherence ∧
    (sim.make_quantum_decision r t).2.decision_history =
      sim.decision_history ++ [(sim.make_quantum_decision r t).1] ∧
    (sim.make_quantum_decision r t).2.wavefunction = ⟨707 / 1000, 707 / 1000⟩ ∧
    (sim.make_quantum_decision r t).2.current_state = .SUPERPOSITION := by
  unfold QuantumWalkSimulator.make_quantum_decision
    QuantumWalkSimulator.reset_to_superposition QuantumWavefunction.collapse
  by_cases hr : r < sim.wavefunction.get_probabilities.1 <;>
    simp [hr, show ("RIGHT" : String) ≠ "LEFT" by decide]

/-- C9: the coherence is `|conjugate(alpha)·beta|`; it is nonnegative, at
most `1/2` for every normalized pair, zero at every collapsed state, and
equal to `0.499849` (within `10^-3` of the maximal value `1/2`) at the
fixed equal superposition `(0.707, 0.707)`. -/
theorem C9_coherence_range (sim : QuantumWalkSimulator) :
    sim.calculate_coherence =
      Complex.abs ((starRingEnd ℂ) sim.wavefunction.alpha * sim.wavefunction.beta) ∧
    0 ≤ sim.calculate_coherence ∧
    (sim.wavefunction.get_probabilities.1 + sim.wavefunction.get_probabilities.2 = 1 →
      sim.calculate_coherence ≤ 1 / 2) ∧
    ((Complex.abs sim.wavefunction.alpha = 1 ∧ Complex.abs sim.wavefunction.beta = 0) ∨
        (Complex.abs sim.wavefunction.alpha = 0 ∧ Complex.abs sim.wavefunction.beta = 1) →
      sim.calculate_coherence = 0) ∧
    (sim.wavefunction = ⟨707 / 1000, 707 / 1000⟩ →
      sim.calculate_coherence = 499849 / 1000000 ∧
      |sim.calculate_coherence - 1 / 2| < 1 / 1000) := by
  refine ⟨rfl, ?_, ?_, ?_, ?_⟩
  · rw [sim.calculate_coherence_eq]
    exact mul_nonneg (Complex.abs.nonneg _) (Complex.abs.nonneg _)
  · intro h
    have hsum :
        Complex.abs sim.wavefunction.alpha ^ 2 + Complex.abs sim.wavefunction.beta ^ 2 = 1 := h
    rw [sim.calculate_coherence_eq]
    nlinarith [sq_nonneg (Complex.abs sim.wavefunction.alpha - Complex.abs sim.wavefunction.beta)]
  · rintro (⟨h1, h2⟩ | ⟨h1, h2⟩) <;> rw [sim.calculate_coherence_eq] <;>
      rw [h1, h2] <;> ring
  · intro hw
    have hval : sim.calculate_coherence = 499849 / 1000000 := by
      rw [sim.calculate_coherence_eq, hw]
      show Complex.abs (707 / 1000 : ℂ) * Complex.abs (707 / 1000 : ℂ) = 499849 / 1000000
      rw [abs_seven_zero_seven]
      norm_num
    refine ⟨hval, ?_⟩
    rw [hval]
    rw [abs_of_neg (by norm_num : (499849 / 1000000 : ℝ) - 1 / 2 < 0)]
    norm_num

/-- C9 witness: the coherence value at the fixed equal superposition and
the `1/2` bound at the collapsed state `(1, 0)`, which is normalized. -/
theorem C9_coherence_range_witness :
    ({ QuantumWalkSimulator.new with
        wavefunction := ⟨707 / 1000, 707 / 1000⟩ } : QuantumWalkSimulator).calculate_coherence =
      499849 / 1000000 ∧
    ({ QuantumWalkSimulator.new with
        wavefunction := ⟨1, 0⟩ } : QuantumWalkSimulator).calculate_coherence ≤ 1 / 2 :=
  ⟨((C9_coherence_range _).2.2.2.2 rfl).1,
   (C9_coherence_range _).2.2.1 (by simp [QuantumWavefunction.get_probabilities])⟩

namespace QuantumWavefunction

/-- Python `apply_decoherence` on a not-both-zero pair leaves unit probability
mass, since the common factor is nonzero and the pair is renormalized. -/
lemma sum_probs_apply_decoherence (w : QuantumWavefunction) (rate dt rnd : ℝ)
    (h : ¬(w.alpha = 0 ∧ w.beta = 0)) :
    (w.apply_decoherence rate dt rnd).get_probabilities.1 +
      (w.apply_decoherence rate dt rnd).get_probabilities.2 = 1 := by
  have hd : (0 : ℝ) < Real.exp (-(rate * dt)) := Real.exp_pos _
  have habs := abs_decoherence_factor rate dt rnd
  have hfne :
      Complex.exp (((2 * Real.pi * rnd * rate * dt : ℝ) : ℂ) * Complex.I) *
        ((Real.exp (-(rate * dt)) : ℝ) : ℂ) ≠ 0 := by
    intro h0
    rw [h0, map_zero] at habs
    exact hd.ne habs
  have hunfold : w.apply_decoherence rate dt rnd =
      QuantumWavefunction.normalize
        ⟨w.alpha *
          (Complex.exp (((2 * Real.pi * rnd * rate * dt : ℝ) : ℂ) * Complex.I) *
            ((Real.exp (-(rate * dt)) : ℝ) : ℂ)),
         w.beta *
          (Complex.exp (((2 * Real.pi * rnd * rate * dt : ℝ) : ℂ) * Complex.I) *
            ((Real.exp (-(rate * dt)) : ℝ) : ℂ))⟩ := rfl
  rw [hunfold]
  apply sum_probs_normalize
  rintro ⟨h1, h2⟩
  exact h ⟨(mul_eq_zero.mp h1).resolve_right hfne,
    (mul_eq_zero.mp h2).resolve_right hfne⟩

end QuantumWavefunction

/-- C10 counterexample: the pair `(2, 0)` has nonzero norm, but
`apply_decoherence 0 0` (with phase draw `0`) changes `get_probabilities`
from `(4, 0)` to `(1, 0)`, because `get_probabilities` squares the raw
magnitudes while `apply_decoherence` renormalizes. -/
theorem C10_counterexample :
    (QuantumWavefunction.mk 2 0).get_probabilities = (4, 0) ∧
    ((QuantumWavefunction.mk 2 0).apply_decoherence 0 0 0).get_probabilities = (1, 0) ∧
    ((QuantumWavefunction.mk 2 0).apply_decoherence 0 0 0).get_probabilities ≠
      (QuantumWavefunction.mk 2 0).get_probabilities := by
  have h1 : (QuantumWavefunction.mk 2 0).get_probabilities = (4, 0) := by
    unfold QuantumWavefunction.get_probabilities
    norm_num [Complex.abs_two]
  have hfac : Complex.exp (((2 * Real.pi * 0 * 0 * 0 : ℝ) : ℂ) * Complex.I) *
      ((Real.exp (-((0 : ℝ) * 0)) : ℝ) : ℂ) = 1 := by
    rw [show (2 * Real.pi * 0 * 0 * 0 : ℝ) = 0 by ring,
      show (-((0 : ℝ) * 0)) = 0 by ring]
    simp
  have h2 : ((QuantumWavefunction.mk 2 0).apply_decoherence 0 0 0).get_probabilities = (1, 0) := by
    have hunfold : (QuantumWavefunction.mk 2 0).apply_decoherence 0 0 0 =
        QuantumWavefunction.normalize
          ⟨2 * (Complex.exp (((2 * Real.pi * 0 * 0 * 0 : ℝ) : ℂ) * Complex.I) *
              ((Real.exp (-((0 : ℝ) * 0)) : ℝ) : ℂ)),
           0 * (Complex.exp (((2 * Real.pi * 0 * 0 * 0 : ℝ) : ℂ) * Complex.I) *
              ((Real.exp (-((0 : ℝ) * 0)) : ℝ) : ℂ))⟩ := rfl
    rw [hunfold, hfac, mul_one, mul_one]
    rw [QuantumWavefunction.get_probabilities_normalize _ (by simp)]
    norm_num [Complex.abs_two]
  refine ⟨h1, h2, ?_⟩
  rw [h1, h2]
  intro hEq
  rw [Prod.mk.injEq] at hEq
  norm_num at hEq

/-- C10 (amended): for every amplitude pair with unit probability mass and
every rate, time step and phase draw, `apply_decoherence` leaves
`get_probabilities` unchanged: both amplitudes are multiplied by the same
factor of positive magnitude and then renormalized. -/
theorem C10_decoherence_preserves_probabilities (w : QuantumWavefunction)
    (rate dt rnd : ℝ)
    (h : w.get_probabilities.1 + w.get_probabilities.2 = 1) :
    (w.apply_decoherence rate dt rnd).get_probabilities = w.get_probabilities :=
  w.get_probabilities_apply_decoherence rate dt rnd h

/-- C10 witness: the normalized pair `(1, 0)` with rate `1`, time step `1`
and phase draw `1/2`. -/
theorem C10_decoherence_preserves_probabilities_witness :
    (QuantumWavefunction.mk 1 0).get_probabilities.1 +
        (QuantumWavefunction.mk 1 0).get_probabilities.2 = 1 ∧
    ((QuantumWavefunction.mk 1 0).apply_decoherence 1 1 (1 / 2)).get_probabilities =
      (QuantumWavefunction.mk 1 0).get_probabilities :=
  ⟨by simp [QuantumWavefunction.get_probabilities],
   C10_decoherence_preserves_probabilities ⟨1, 0⟩ 1 1 (1 / 2)
     (by simp [QuantumWavefunction.get_probabilities])⟩

/-- C1 counterexample: one `make_quantum_decision` call (here on the engine
configured with amplitudes `(1, 0)`, with draw `0` and timestamp `0`) ends
with the amplitude pair `(0.707, 0.707)`, whose probability mass is
`0.999698`, strictly below `1 - 10^-6`, although neither amplitude is
zero: the final reset assigns the pair without a normalize call. -/
theorem C1_counterexample :
    ((QuantumWalkSimulator.new.configure 1 0 1 0).make_quantum_decision 0 0).2.wavefunction.get_probabilities.1 +
      ((QuantumWalkSimulator.new.configure 1 0 1 0).make_quantum_decision 0 0).2.wavefunction.get_probabilities.2 =
      999698 / 1000000 ∧
    ¬(((QuantumWalkSimulator.new.configure 1 0 1 0).make_quantum_decision 0 0).2.wavefunction.alpha = 0 ∧
      ((QuantumWalkSimulator.new.configure 1 0 1 0).make_quantum_decision 0 0).2.wavefunction.beta = 0) ∧
    (999698 / 1000000 : ℝ) < 1 - 1 / 1000000 := by
  have hwf : ((QuantumWalkSimulator.new.configure 1 0 1 0).make_quantum_decision 0 0).2.wavefunction =
      ⟨707 / 1000, 707 / 1000⟩ := rfl
  refine ⟨?_, ?_, by norm_num⟩
  · rw [hwf]
    show Complex.abs (707 / 1000 : ℂ) ^ 2 + Complex.abs (707 / 1000 : ℂ) ^ 2 =
      999698 / 1000000
    rw [abs_seven_zero_seven]
    norm_num
  · rw [hwf]
    rintro ⟨ha, _⟩
    have ha' : (707 / 1000 : ℂ) = 0 := ha
    norm_num at ha'

/-- C1 (amended): a direct `normalize` call is the identity on the zero
pair and otherwise establishes probability mass within `[1-1e-6, 1+1e-6]`
(in fact exactly `1`); the configuration method and `evolve_quantum_state`
(the mutation performed by `step`) do the same whenever the pair fed to
their final normalize is not identically zero; `make_quantum_decision`
however always ends at the literal pair `(0.707, 0.707)` with probability
mass exactly `0.999698`, which is within `10^-3` of `1` but not within
`10^-6`. -/
theorem C1_normalize_invariant :
    (∀ w : QuantumWavefunction,
      (w.alpha = 0 ∧ w.beta = 0 → w.normalize = w) ∧
      (¬(w.alpha = 0 ∧ w.beta = 0) →
        1 - 1 / 1000000 ≤
            w.normalize.get_probabilities.1 + w.normalize.get_probabilities.2 ∧
          w.normalize.get_probabilities.1 + w.normalize.get_probabilities.2 ≤
            1 + 1 / 1000000)) ∧
    (∀ (sim : QuantumWalkSimulator) (la ra ct nl : ℝ), ¬(la = 0 ∧ ra = 0) →
      1 - 1 / 1000000 ≤
          (sim.configure la ra ct nl).wavefunction.get_probabilities.1 +
            (sim.configure la ra ct nl).wavefunction.get_probabilities.2 ∧
        (sim.configure la ra ct nl).wavefunction.get_probabilities.1 +
            (sim.configure la ra ct nl).wavefunction.get_probabilities.2 ≤
          1 + 1 / 1000000) ∧
    (∀ (sim : QuantumWalkSimulator) (dt rnd ga gai gb gbi : ℝ),
      (0 < sim.noise_level →
        ¬((sim.wavefunction.apply_decoherence sim.decoherence_rate dt rnd).alpha +
              ⟨ga, gai⟩ = 0 ∧
          (sim.wavefunction.apply_decoherence sim.decoherence_rate dt rnd).beta +
              ⟨gb, gbi⟩ = 0)) →
      (¬0 < sim.noise_level → ¬(sim.wavefunction.alpha = 0 ∧ sim.wavefunction.beta = 0)) →
      1 - 1 / 1000000 ≤
          (sim.evolve_quantum_state dt rnd ga gai gb gbi).wavefunction.get_probabilities.1 +
            (sim.evolve_quantum_state dt rnd ga gai gb gbi).wavefunction.get_probabilities.2 ∧
        (sim.evolve_quantum_state dt rnd ga gai gb gbi).wavefunction.get_probabilities.1 +
            (sim.evolve_quantum_state dt rnd ga gai gb gbi).wavefunction.get_probabilities.2 ≤
          1 + 1 / 1000000) ∧
    (∀ (sim : QuantumWalkSimulator) (r t : ℝ),
      (sim.make_quantum_decision r t).2.wavefunction = ⟨707 / 1000, 707 / 1000⟩ ∧
      (sim.make_quantum_decision r t).2.wavefunction.get_probabilities.1 +
          (sim.make_quantum_decision r t).2.wavefunction.get_probabilities.2 =
        999698 / 1000000 ∧
      1 - 1 / 1000 ≤ (999698 / 1000000 : ℝ) ∧ (999698 / 1000000 : ℝ) ≤ 1 + 1 / 1000 ∧
      ¬(1 - 1 / 1000000 ≤ (999698 / 1000000 : ℝ))) := by
  refine ⟨?_, ?_, ?_, ?_⟩
  · intro w
    refine ⟨fun ⟨h1, h2⟩ => w.normalize_of_zero h1 h2, fun h => ?_⟩
    rw [w.sum_probs_normalize h]
    norm_num
  · intro sim la ra ct nl h
    have hwf : (sim.configure la ra ct nl).wavefunction =
        QuantumWavefunction.normalize ⟨(la : ℂ), (ra : ℂ)⟩ := rfl
    rw [hwf, QuantumWavefunction.sum_probs_normalize _ ?hne]
    · norm_num
    case hne =>
      rintro ⟨h1, h2⟩
      have h1' : (la : ℂ) = 0 := h1
      have h2' : (ra : ℂ) = 0 := h2
      exact h ⟨by exact_mod_cast h1', by exact_mod_cast h2'⟩
  · intro sim dt rnd ga gai gb gbi hpos hneg
    by_cases hnl : 0 < sim.noise_level
    · have hwf : (sim.evolve_quantum_state dt rnd ga gai gb gbi).wavefunction =
          QuantumWavefunction.normalize
            ⟨(sim.wavefunction.apply_decoherence sim.decoherence_rate dt rnd).alpha +
                ⟨ga, gai⟩,
             (sim.wavefunction.apply_decoherence sim.decoherence_rate dt rnd).beta +
                ⟨gb, gbi⟩⟩ := by
        simp only [QuantumWalkSimulator.evolve_quantum_state]
        rw [if_pos hnl]
      rw [hwf, QuantumWavefunction.sum_probs_normalize _ (hpos hnl)]
      norm_num
    · have hwf : (sim.evolve_quantum_state dt rnd ga gai gb gbi).wavefunction =
          sim.wavefunction.apply_decoherence sim.decoherence_rate dt rnd := by
        simp only [QuantumWalkSimulator.evolve_quantum_state]
        rw [if_neg hnl]
      rw [hwf, QuantumWavefunction.sum_probs_apply_decoherence _ _ _ _ (hneg hnl)]
      norm_num
  · intro sim r t
    have hwf : (sim.make_quantum_decision r t).2.wavefunction =
        ⟨707 / 1000, 707 / 1000⟩ := rfl
    refine ⟨hwf, ?_, by norm_num, by norm_num, by norm_num⟩
    rw [hwf]
    show Complex.abs (707 / 1000 : ℂ) ^ 2 + Complex.abs (707 / 1000 : ℂ) ^ 2 =
      999698 / 1000000
    rw [abs_seven_zero_seven]
    norm_num

/-- C1 witness: the concrete pair `(1, 0)` is not both zero and its
normalization has probability mass inside the tolerance band. -/
theorem C1_normalize_invariant_witness :
    ¬((QuantumWavefunction.mk 1 0).alpha = 0 ∧ (QuantumWavefunction.mk 1 0).beta = 0) ∧
    (1 - 1 / 1000000 ≤
        (QuantumWavefunction.mk 1 0).normalize.get_probabilities.1 +
          (QuantumWavefunction.mk 1 0).normalize.get_probabilities.2 ∧
      (QuantumWavefunction.mk 1 0).normalize.get_probabilities.1 +
          (QuantumWavefunction.mk 1 0).normalize.get_probabilities.2 ≤
        1 + 1 / 1000000) :=
  ⟨by simp, (C1_normalize_invariant.1 ⟨1, 0⟩).2 (by simp)⟩

namespace QuantumWalkSimulator

/-- The evolution `evolve_quantum_state` only changes the wavefunction. -/
lemma evolve_quantum_state_fields (sim : QuantumWalkSimulator)
    (dt rnd ga gai gb gbi : ℝ) :
    (sim.evolve_quantum_state dt rnd ga gai gb gbi).entropy_history =
        sim.entropy_history ∧
      (sim.evolve_quantum_state dt rnd ga gai gb gbi).coherence_history =
        sim.coherence_history ∧
      (sim.evolve_quantum_state dt rnd ga gai gb gbi).last_decision_time =
        sim.last_decision_time := by
  simp only [evolve_quantum_state]
  split <;> exact ⟨rfl, rfl, rfl⟩

end QuantumWalkSimulator

/-- C4 counterexample: `step` has no time-step input; it measures time
internally.  On a fresh engine (`last_decision_time = 0`) a `step` call
with clock reading `5` applies no decoherence and appends nothing to the
histories — it only records the reading — contradicting the claim that
`step(dt)` always decoheres with the supplied `dt` and appends
entropy/coherence.  A second call with reading `5` after one with reading
`3` evolves over the internally measured difference `2`, not over `5`. -/
theorem C4_counterexample :
    (QuantumWalkSimulator.new.step 5 0 0 0 0 0).entropy_history = [] ∧
    (QuantumWalkSimulator.new.step 5 0 0 0 0 0).coherence_history = [] ∧
    (QuantumWalkSimulator.new.step 5 0 0 0 0 0).wavefunction =
      QuantumWalkSimulator.new.wavefunction ∧
    (QuantumWalkSimulator.new.step 5 0 0 0 0 0).last_decision_time = 5 ∧
    ((QuantumWalkSimulator.new.step 3 0 0 0 0 0).step 5 0 0 0 0 0).wavefunction =
      ((QuantumWalkSimulator.new.step 3 0 0 0 0 0).evolve_quantum_state
        2 0 0 0 0 0).wavefunction := by
  have hlast : ¬(0 : ℝ) < QuantumWalkSimulator.new.last_decision_time := by
    show ¬(0 : ℝ) < 0
    norm_num
  have h5 : QuantumWalkSimulator.new.step 5 0 0 0 0 0 =
      { QuantumWalkSimulator.new with last_decision_time := 5 } := by
    simp only [QuantumWalkSimulator.step]
    rw [if_neg hlast]
  have h3 : QuantumWalkSimulator.new.step 3 0 0 0 0 0 =
      { QuantumWalkSimulator.new with last_decision_time := 3 } := by
    simp only [QuantumWalkSimulator.step]
    rw [if_neg hlast]
  refine ⟨by rw [h5]; rfl, by rw [h5]; rfl, by rw [h5], by rw [h5], ?_⟩
  rw [h3]
  simp only [QuantumWalkSimulator.step]
  rw [if_pos (show (0 : ℝ) <
      ({ QuantumWalkSimulator.new with
          last_decision_time := 3 } : QuantumWalkSimulator).last_decision_time from
    by show (0 : ℝ) < 3; norm_num)]
  rw [show ((5 : ℝ) -
      ({ QuantumWalkSimulator.new with
          last_decision_time := 3 } : QuantumWalkSimulator).last_decision_time) = 2 from
    by show (5 : ℝ) - 3 = 2; norm_num]
  rfl

/-- C4 (amended): `step` receives the wall-clock reading, not `dt`; when
`last_decision_time > 0` it records the reading, evolves the state over the
internally measured difference `current_time - last_decision_time` (the
evolution applies `apply_decoherence` with that difference and, when
`noise_level > 0`, adds the noise draws to the real and imaginary parts of
both amplitudes and renormalizes) and appends the evolved entropy and
coherence to the histories; on an engine with `last_decision_time ≤ 0` it
only records the reading. -/
theorem C4_step_time_measurement (sim : QuantumWalkSimulator)
    (current_time rnd ga gai gb gbi : ℝ) (h : 0 < sim.last_decision_time) :
    (sim.step current_time rnd ga gai gb gbi).last_decision_time = current_time ∧
    (sim.step current_time rnd ga gai gb gbi).wavefunction =
      (sim.evolve_quantum_state (current_time - sim.last_decision_time)
        rnd ga gai gb gbi).wavefunction ∧
    (sim.evolve_quantum_state (current_time - sim.last_decision_time)
        rnd ga gai gb gbi).wavefunction =
      (if 0 < sim.noise_level then
        QuantumWavefunction.normalize
          ⟨(sim.wavefunction.apply_decoherence sim.decoherence_rate
              (current_time - sim.last_decision_time) rnd).alpha + ⟨ga, gai⟩,
           (sim.wavefunction.apply_decoherence sim.decoherence_rate
              (current_time - sim.last_decision_time) rnd).beta + ⟨gb, gbi⟩⟩
      else sim.wavefunction.apply_decoherence sim.decoherence_rate
        (current_time - sim.last_decision_time) rnd) ∧
    (sim.entropy_history.length ≤ 999 →
      (sim.step current_time rnd ga gai gb gbi).entropy_history =
        sim.entropy_history ++
          [(sim.evolve_quantum_state (current_time - sim.last_decision_time)
              rnd ga gai gb gbi).calculate_entropy]) ∧
    (sim.coherence_history.length ≤ 999 →
      (sim.step current_time rnd ga gai gb gbi).coherence_history =
        sim.coherence_history ++
          [(sim.evolve_quantum_state (current_time - sim.last_decision_time)
              rnd ga gai gb gbi).calculate_coherence]) ∧
    (∀ sim2 : QuantumWalkSimulator, ¬0 < sim2.last_decision_time →
      sim2.step current_time rnd ga gai gb gbi =
        { sim2 with last_decision_time := current_time }) := by
  have hev := sim.evolve_quantum_state_fields
    (current_time - sim.last_decision_time) rnd ga gai gb gbi
  have hstep : sim.step current_time rnd ga gai gb gbi =
      { (sim.evolve_quantum_state (current_time - sim.last_decision_time)
          rnd ga gai gb gbi).update_histories with
        last_decision_time := current_time } := by
    simp only [QuantumWalkSimulator.step]
    rw [if_pos h]
  refine ⟨by rw [hstep], by rw [hstep]; rfl, ?_, ?_, ?_, ?_⟩
  · simp only [QuantumWalkSimulator.evolve_quantum_state]
    split <;> rfl
  · intro hlen
    rw [hstep]
    show (if 1000 <
        ((sim.evolve_quantum_state (current_time - sim.last_decision_time)
            rnd ga gai gb gbi).entropy_history ++
          [(sim.evolve_quantum_state (current_time - sim.last_decision_time)
              rnd ga gai gb gbi).calculate_entropy]).length
      then _ else _) = _
    rw [hev.1, if_neg (by rw [List.length_append, List.length_singleton]; omega)]
  · intro hlen
    rw [hstep]
    show (if 1000 <
        ((sim.evolve_quantum_state (current_time - sim.last_decision_time)
            rnd ga gai gb gbi).coherence_history ++
          [(sim.evolve_quantum_state (current_time - sim.last_decision_time)
              rnd ga gai gb gbi).calculate_coherence]).length
      then _ else _) = _
    rw [hev.2.1, if_neg (by rw [List.length_append, List.length_singleton]; omega)]
  · intro sim2 h2
    simp only [QuantumWalkSimulator.step]
    rw [if_neg h2]

/-- C4 witness: an engine whose recorded time is `1`, stepped with clock
reading `2`; the result records the reading `2`. -/
theorem C4_step_time_measurement_witness :
    (0 : ℝ) <
      ({ QuantumWalkSimulator.new with
          last_decision_time := 1 } : QuantumWalkSimulator).last_decision_time ∧
    (({ QuantumWalkSimulator.new with
          last_decision_time := 1 } : QuantumWalkSimulator).step
        2 0 0 0 0 0).last_decision_time = 2 :=
  ⟨by show (0 : ℝ) < 1; norm_num,
    (C4_step_time_measurement _ 2 0 0 0 0 0 (by show (0 : ℝ) < 1; norm_num)).1⟩

/-- One unfolding of `iterateDecisions`. -/
lemma iterateDecisions_succ (n : ℕ) (sim : QuantumWalkSimulator) :
    iterateDecisions (n + 1) sim =
      iterateDecisions n ((sim.make_quantum_decision 0 0).2) := rfl

/-- Each `make_quantum_decision` call appends exactly one decision, so `n`
iterated calls add `n` entries to `decision_history`. -/
lemma iterateDecisions_length (n : ℕ) (sim : QuantumWalkSimulator) :
    (iterateDecisions n sim).decision_history.length =
      sim.decision_history.length + n := by
  induction n generalizing sim with
  | zero => rfl
  | succ n ih =>
    have happend : ((sim.make_quantum_decision 0 0).2).decision_history =
        sim.decision_history ++ [(sim.make_quantum_decision 0 0).1] := rfl
    have : iterateDecisions (n + 1) sim =
        iterateDecisions n ((sim.make_quantum_decision 0 0).2) := rfl
    rw [this, ih, happend, List.length_append, List.length_singleton]
    omega

/-- Iterated decisions only ever append: the existing history stays a
prefix. -/
lemma iterateDecisions_prefix (n : ℕ) (sim : QuantumWalkSimulator) :
    ∃ l, (iterateDecisions n sim).decision_history =
      sim.decision_history ++ l := by
  induction n generalizing sim with
  | zero => exact ⟨[], (List.append_nil _).symm⟩
  | succ n ih =>
    obtain ⟨l, hl⟩ := ih ((sim.make_quantum_decision 0 0).2)
    have happend : ((sim.make_quantum_decision 0 0).2).decision_history =
        sim.decision_history ++ [(sim.make_quantum_decision 0 0).1] := rfl
    have hstep : iterateDecisions (n + 1) sim =
        iterateDecisions n ((sim.make_quantum_decision 0 0).2) := rfl
    refine ⟨[(sim.make_quantum_decision 0 0).1] ++ l, ?_⟩
    rw [hstep, hl, happend, List.append_assoc]

/-- C5 counterexample: after `1000 + 1` iterated `make_quantum_decision`
calls on a fresh engine, `decision_history` holds `1001` entries — more
than 1000 — and its oldest entry is still the very first decision: the
code never evicts from `decision_history`. -/
theorem C5_counterexample :
    1000 < (iterateDecisions (1000 + 1) QuantumWalkSimulator.new).decision_history.length ∧
    (iterateDecisions (1000 + 1) QuantumWalkSimulator.new).decision_history.head? =
      some ((QuantumWalkSimulator.new.make_quantum_decision 0 0).1) := by
  constructor
  · rw [iterateDecisions_length]
    have h0 : QuantumWalkSimulator.new.decision_history.length = 0 := rfl
    omega
  · have hstep := iterateDecisions_succ 1000 QuantumWalkSimulator.new
    obtain ⟨l, hl⟩ :=
      iterateDecisions_prefix 1000 ((QuantumWalkSimulator.new.make_quantum_decision 0 0).2)
    have hfirst : ((QuantumWalkSimulator.new.make_quantum_decision 0 0).2).decision_history =
        [(QuantumWalkSimulator.new.make_quantum_decision 0 0).1] := rfl
    rw [hstep, hl, hfirst]
    rfl

/-- C5 (amended): the entropy and coherence histories are capped at 1000
entries by `update_histories`, which appends and then drops the oldest
entry when the length exceeds 1000; `decision_history` however grows
without bound: `n` decisions on a fresh engine leave exactly `n` records. -/
theorem C5_bounded_histories :
    (∀ sim : QuantumWalkSimulator, sim.entropy_history.length ≤ 1000 →
      sim.update_histories.entropy_history.length ≤ 1000) ∧
    (∀ sim : QuantumWalkSimulator, sim.coherence_history.length ≤ 1000 →
      sim.update_histories.coherence_history.length ≤ 1000) ∧
    (∀ sim : QuantumWalkSimulator,
      1000 < (sim.entropy_history ++ [sim.calculate_entropy]).length →
      sim.update_histories.entropy_history =
        (sim.entropy_history ++ [sim.calculate_entropy]).tail) ∧
    (∀ n : ℕ,
      (iterateDecisions n QuantumWalkSimulator.new).decision_history.length = n) := by
  refine ⟨?_, ?_, ?_, ?_⟩
  · intro sim hlen
    show (if 1000 < (sim.entropy_history ++ [sim.calculate_entropy]).length
        then (sim.entropy_history ++ [sim.calculate_entropy]).tail
        else sim.entropy_history ++ [sim.calculate_entropy]).length ≤ 1000
    rw [List.length_append, List.length_singleton] at *
    split
    · rw [List.length_tail, List.length_append, List.length_singleton]
      omega
    · rw [List.length_append, List.length_singleton]
      omega
  · intro sim hlen
    show (if 1000 < (sim.coherence_history ++ [sim.calculate_coherence]).length
        then (sim.coherence_history ++ [sim.calculate_coherence]).tail
        else sim.coherence_history ++ [sim.calculate_coherence]).length ≤ 1000
    rw [List.length_append, List.length_singleton] at *
    split
    · rw [List.length_tail, List.length_append, List.length_singleton]
      omega
    · rw [List.length_append, List.length_singleton]
      omega
  · intro sim hlen
    show (if 1000 < (sim.entropy_history ++ [sim.calculate_entropy]).length
        then (sim.entropy_history ++ [sim.calculate_entropy]).tail
        else sim.entropy_history ++ [sim.calculate_entropy]) =
      (sim.entropy_history ++ [sim.calculate_entropy]).tail
    rw [if_pos hlen]
  · intro n
    rw [iterateDecisions_length]
    have h0 : QuantumWalkSimulator.new.decision_history.length = 0 := rfl
    omega

/-- C5 witness: the fresh engine has at most 1000 entropy entries, keeps at
most 1000 after an update, and five decisions leave five records. -/
theorem C5_bounded_histories_witness :
    QuantumWalkSimulator.new.entropy_history.length ≤ 1000 ∧
    QuantumWalkSimulator.new.update_histories.entropy_history.length ≤ 1000 ∧
    (iterateDecisions 5 QuantumWalkSimulator.new).decision_history.length = 5 :=
  ⟨by show ([] : List ℝ).length ≤ 1000; simp,
   C5_bounded_histories.1 QuantumWalkSimulator.new
     (by show ([] : List ℝ).length ≤ 1000; simp),
   C5_bounded_histories.2.2.2 5⟩

/-- C6 counterexample: configuring with `coherence_time = -1` does not
fail — no error path exists — and the engine is fully updated with the new
(invalid) configuration: the invalid value `-1` is stored, the rate falls
back to `0`, histories are cleared and the state tag is reset. -/
theorem C6_counterexample :
    (QuantumWalkSimulator.new.configure (707 / 1000) (707 / 1000) (-1) (1 / 10)).decoherence_rate = 0 ∧
    (QuantumWalkSimulator.new.configure (707 / 1000) (707 / 1000) (-1) (1 / 10)).coherence_time = -1 ∧
    (QuantumWalkSimulator.new.configure (707 / 1000) (707 / 1000) (-1) (1 / 10)).current_state =
      .SUPERPOSITION ∧
    (QuantumWalkSimulator.new.configure (707 / 1000) (707 / 1000) (-1) (1 / 10)).decision_history = [] ∧
    (QuantumWalkSimulator.new.configure (707 / 1000) (707 / 1000) (-1) (1 / 10)).entropy_history = [] ∧
    (QuantumWalkSimulator.new.configure (707 / 1000) (707 / 1000) (-1) (1 / 10)).coherence_history = [] := by
  refine ⟨?_, rfl, rfl, rfl, rfl, rfl⟩
  show (if (0 : ℝ) < -1 then 1 / (-1 : ℝ) else 0) = 0
  rw [if_neg (by norm_num)]

/-- C6 (amended): the configuration method never raises; it sets
`decoherence_rate` to `1/coherence_time` for positive coherence time and to
`0` otherwise, always clears the three histories and sets the state tag to
SUPERPOSITION, and performs no validation of the amplitudes. -/
theorem C6_configure_total (sim : QuantumWalkSimulator) (la ra ct nl : ℝ) :
    (0 < ct → (sim.configure la ra ct nl).decoherence_rate * ct = 1) ∧
    (¬0 < ct → (sim.configure la ra ct nl).decoherence_rate = 0) ∧
    (sim.configure la ra ct nl).coherence_time = ct ∧
    (sim.configure la ra ct nl).noise_level = nl ∧
    (sim.configure la ra ct nl).decision_history = [] ∧
    (sim.configure la ra ct nl).entropy_history = [] ∧
    (sim.configure la ra ct nl).coherence_history = [] ∧
    (sim.configure la ra ct nl).current_state = .SUPERPOSITION ∧
    (sim.configure la ra ct nl).wavefunction =
      QuantumWavefunction.normalize ⟨(la : ℂ), (ra : ℂ)⟩ := by
  refine ⟨?_, ?_, rfl, rfl, rfl, rfl, rfl, rfl, rfl⟩
  · intro h
    show (if 0 < ct then 1 / ct else 0) * ct = 1
    rw [if_pos h]
    field_simp
  · intro h
    show (if 0 < ct then 1 / ct else 0) = 0
    rw [if_neg h]

/-- C6 witness: with the valid coherence time `2` the stored rate times
`2` is `1` (the rate is `1/2`); with `-1` it is `0`. -/
theorem C6_configure_total_witness :
    ((0 : ℝ) < 2 ∧
      (QuantumWalkSimulator.new.configure 1 0 2 0).decoherence_rate * 2 = 1) ∧
    (¬(0 : ℝ) < -1 ∧
      (QuantumWalkSimulator.new.configure 1 0 (-1) 0).decoherence_rate = 0) :=
  ⟨⟨by norm_num, (C6_configure_total QuantumWalkSimulator.new 1 0 2 0).1 (by norm_num)⟩,
   ⟨by norm_num, (C6_configure_total QuantumWalkSimulator.new 1 0 (-1) 0).2.1 (by norm_num)⟩⟩

/-- C7 counterexample: on a one-element list the analyzer returns the
empty report (`{}`, modelled as `none`) — it carries no
`insufficient_data` status marker, it is simply empty. -/
theorem C7_counterexample :
    QuantumStateAnalyzer.analyze_randomness_quality
      [{ direction := "LEFT", probability := 1, amplitude_left := 1,
         amplitude_right := 0, entropy := 0, coherence := 0, timestamp := 0 }] = none := by
  unfold QuantumStateAnalyzer.analyze_randomness_quality
  rw [if_pos (by simp)]

/-- C7 (amended): the analyzer is a total function — it never raises — and
returns the empty report exactly when fewer than two decisions are
supplied; on two or more decisions it returns the full report. -/
theorem C7_insufficient_data (decisions : List QuantumDecision) :
    QuantumStateAnalyzer.analyze_randomness_quality decisions = none ↔
      decisions.length < 2 := by
  unfold QuantumStateAnalyzer.analyze_randomness_quality
  split
  · case isTrue h => simp [h]
  · case isFalse h => simp [h]

/-- The projection `isDegenerate` is `true` exactly on the degenerate report. -/
lemma RunsTestResult.isDegenerate_iff (r : RunsTestResult) :
    r.isDegenerate = true ↔ r = .degenerate := by
  cases r with
  | insufficient_data =>
    exact ⟨fun h => Bool.noConfusion h, fun h => RunsTestResult.noConfusion h⟩
  | degenerate => simp [isDegenerate]
  | stats a b c d e =>
    exact ⟨fun h => Bool.noConfusion h, fun h => RunsTestResult.noConfusion h⟩

/-- The loop count `1 + adjacentChanges` equals the number of maximal
constant runs: the length of the sequence destuttered along `≠`. -/
lemma destutter_length_runs (a : ℤ) (l : List ℤ) :
    (List.destutter' (· ≠ ·) a l).length =
      1 + QuantumStateAnalyzer.adjacentChanges (a :: l) := by
  induction l generalizing a with
  | nil => rfl
  | cons b l ih =>
    by_cases hab : a = b
    · subst hab
      rw [List.destutter'_cons, if_neg (show ¬(a ≠ a) by simp), ih]
      simp [QuantumStateAnalyzer.adjacentChanges]
    · rw [List.destutter'_cons, if_pos hab, List.length_cons, ih]
      simp only [QuantumStateAnalyzer.adjacentChanges, if_neg hab]
      omega

/-- Entries of a 0/1 list are nonnegative, so the sum is nonnegative. -/
lemma binary_sum_nonneg (l : List ℤ) (hb : ∀ x ∈ l, x = 0 ∨ x = 1) :
    0 ≤ l.sum :=
  List.sum_nonneg fun x hx => by rcases hb x hx with h | h <;> simp [h]

/-- The sum of a 0/1 list is at most its length. -/
lemma binary_sum_le_length : ∀ (l : List ℤ), (∀ x ∈ l, x = 0 ∨ x = 1) →
    l.sum ≤ (l.length : ℤ)
  | [], _ => by simp
  | a :: l, hb => by
    have hbl : ∀ x ∈ l, x = 0 ∨ x = 1 := fun x hx => hb x (List.mem_cons_of_mem a hx)
    have ih := binary_sum_le_length l hbl
    rw [List.sum_cons, List.length_cons]
    push_cast
    rcases hb a (List.mem_cons_self a l) with h | h <;> rw [h] <;> linarith

/-- The sum of a 0/1 list vanishes exactly when all entries are `0`. -/
lemma binary_sum_eq_zero_iff : ∀ (l : List ℤ), (∀ x ∈ l, x = 0 ∨ x = 1) →
    (l.sum = 0 ↔ ∀ x ∈ l, x = 0)
  | [], _ => by simp
  | a :: l, hb => by
    have hbl : ∀ x ∈ l, x = 0 ∨ x = 1 := fun x hx => hb x (List.mem_cons_of_mem a hx)
    have ih := binary_sum_eq_zero_iff l hbl
    have hnn := binary_sum_nonneg l hbl
    rw [List.sum_cons]
    constructor
    · intro h
      have ha0 : a = 0 := by
        rcases hb a (List.mem_cons_self a l) with h' | h'
        · exact h'
        · exfalso; rw [h'] at h; linarith
      have hs0 : l.sum = 0 := by rw [ha0] at h; linarith
      intro x hx
      rcases List.mem_cons.mp hx with rfl | hx'
      · exact ha0
      · exact ih.mp hs0 x hx'
    · intro hall
      have ha0 : a = 0 := hall a (List.mem_cons_self a l)
      have hs0 : l.sum = 0 := ih.mpr fun x hx => hall x (List.mem_cons_of_mem a hx)
      rw [ha0, hs0]
      ring

/-- The sum of a 0/1 list equals the length exactly when all entries are
`1`. -/
lemma binary_sum_eq_length_iff : ∀ (l : List ℤ), (∀ x ∈ l, x = 0 ∨ x = 1) →
    (l.sum = (l.length : ℤ) ↔ ∀ x ∈ l, x = 1)
  | [], _ => by simp
  | a :: l, hb => by
    have hbl : ∀ x ∈ l, x = 0 ∨ x = 1 := fun x hx => hb x (List.mem_cons_of_mem a hx)
    have ih := binary_sum_eq_length_iff l hbl
    have hle := binary_sum_le_length l hbl
    rw [List.sum_cons, List.length_cons]
    push_cast
    constructor
    · intro h
      have ha1 : a = 1 := by
        rcases hb a (List.mem_cons_self a l) with h' | h'
        · exfalso; rw [h'] at h; linarith
        · exact h'
      have hs : l.sum = (l.length : ℤ) := by rw [ha1] at h; linarith
      intro x hx
      rcases List.mem_cons.mp hx with rfl | hx'
      · exact ha1
      · exact ih.mp hs x hx'
    · intro hall
      have ha1 : a = 1 := hall a (List.mem_cons_self a l)
      have hs : l.sum = (l.length : ℤ) := ih.mpr fun x hx => hall x (List.mem_cons_of_mem a hx)
      rw [ha1, hs]
      ring

/-- On a 0/1 sequence of length at least 2, the runs test reports
`degenerate` exactly when all entries are identical. -/
lemma runs_test_degenerate_iff (seq : List ℤ) (h2 : 2 ≤ seq.length)
    (hb : ∀ x ∈ seq, x = 0 ∨ x = 1) :
    QuantumStateAnalyzer.runs_test seq = .degenerate ↔ ∃ c, ∀ x ∈ seq, x = c := by
  have hne : seq ≠ [] := by
    intro h
    rw [h] at h2
    simp at h2
  have hnot2 : ¬seq.length < 2 := by omega
  simp only [QuantumStateAnalyzer.runs_test]
  rw [if_neg hnot2]
  by_cases hcond : seq.sum = 0 ∨ (seq.length : ℤ) - seq.sum = 0
  · rw [if_pos hcond]
    constructor
    · intro _
      rcases hcond with h | h
      · exact ⟨0, (binary_sum_eq_zero_iff seq hb).mp h⟩
      · have hsum : seq.sum = (seq.length : ℤ) := by linarith
        exact ⟨1, (binary_sum_eq_length_iff seq hb).mp hsum⟩
    · intro _
      rfl
  · rw [if_neg hcond]
    constructor
    · intro h
      exact RunsTestResult.noConfusion h
    · rintro ⟨c, hc⟩
      exfalso
      obtain ⟨a, l, rfl⟩ := List.exists_cons_of_ne_nil hne
      have hac : a = c := hc a (List.mem_cons_self a l)
      rcases hb a (List.mem_cons_self a l) with h0 | h1
      · exact hcond (Or.inl ((binary_sum_eq_zero_iff _ hb).mpr
          fun x hx => by rw [hc x hx, ← hac, h0]))
      · refine hcond (Or.inr ?_)
        have hsum : (a :: l).sum = (((a :: l).length : ℕ) : ℤ) :=
          (binary_sum_eq_length_iff _ hb).mpr fun x hx => by rw [hc x hx, ← hac, h1]
        linarith

/-- On a non-degenerate report the runs test records the loop count and the
`2·ones·zeros/n + 1` expected-runs value. -/
lemma runs_test_stats_fields (seq : List ℤ) (h2 : 2 ≤ seq.length)
    (hcond : ¬(seq.sum = 0 ∨ (seq.length : ℤ) - seq.sum = 0)) :
    (QuantumStateAnalyzer.runs_test seq).observed =
        some (1 + QuantumStateAnalyzer.adjacentChanges seq) ∧
      (QuantumStateAnalyzer.runs_test seq).expectedRuns =
        some (2 * ((seq.sum : ℤ) : ℝ) * ((((seq.length : ℤ) - seq.sum : ℤ)) : ℝ) /
            ((seq.length : ℕ) : ℝ) + 1) := by
  have hnot2 : ¬seq.length < 2 := by omega
  simp only [QuantumStateAnalyzer.runs_test]
  rw [if_neg hnot2, if_neg hcond]
  exact ⟨rfl, rfl⟩

/-- C8 counterexample: the singleton sequence `[1]` has all values
identical, yet the runs test classifies it `insufficient_data`, not
`degenerate` — the degenerate classification only applies from length 2
on. -/
theorem C8_counterexample :
    QuantumStateAnalyzer.runs_test [1] = .insufficient_data ∧
    QuantumStateAnalyzer.runs_test [1] ≠ .degenerate ∧
    (∀ x ∈ [(1 : ℤ)], x = 1) := by
  have h1 : QuantumStateAnalyzer.runs_test [1] = .insufficient_data := by
    simp only [QuantumStateAnalyzer.runs_test]
    rw [if_pos (by simp)]
  exact ⟨h1, fun h => RunsTestResult.noConfusion (h1 ▸ h), by simp⟩

/-- C8 (amended): on 0/1 sequences of length at least 2, the runs test
classifies `degenerate` exactly when all values are identical; otherwise
it observes the number of maximal constant runs (the length of the
sequence destuttered along `≠`) and reports
`expected_runs = 2·ones·zeros/n + 1`; on the alternating sequence
`[1,0]*10` it observes 20 runs and is not degenerate, and on `[1]*20` it
is degenerate. -/
theorem C8_runs_test_classification (seq : List ℤ) (h2 : 2 ≤ seq.length)
    (hb : ∀ x ∈ seq, x = 0 ∨ x = 1) :
    (QuantumStateAnalyzer.runs_test seq = .degenerate ↔ ∃ c, ∀ x ∈ seq, x = c) ∧
    (QuantumStateAnalyzer.runs_test seq ≠ .degenerate →
      (QuantumStateAnalyzer.runs_test seq).observed =
          some ((seq.destutter (· ≠ ·)).length) ∧
        (QuantumStateAnalyzer.runs_test seq).expectedRuns =
          some (2 * (seq.sum : ℝ) * ((seq.length : ℝ) - (seq.sum : ℝ)) /
              (seq.length : ℝ) + 1)) ∧
    (QuantumStateAnalyzer.runs_test alternatingTwenty).observed = some 20 ∧
    QuantumStateAnalyzer.runs_test alternatingTwenty ≠ .degenerate ∧
    QuantumStateAnalyzer.runs_test (List.replicate 20 1) = .degenerate := by
  refine ⟨runs_test_degenerate_iff seq h2 hb, ?_, by decide, ?_, ?_⟩
  · intro hnd
    have hcond : ¬(seq.sum = 0 ∨ (seq.length : ℤ) - seq.sum = 0) := by
      intro hc
      apply hnd
      have hnot2 : ¬seq.length < 2 := by omega
      simp only [QuantumStateAnalyzer.runs_test]
      rw [if_neg hnot2, if_pos hc]
    obtain ⟨hobs, hexp⟩ := runs_test_stats_fields seq h2 hcond
    constructor
    · rw [hobs]
      obtain ⟨a, l, rfl⟩ := List.exists_cons_of_ne_nil
        (by intro h; rw [h] at h2; simp at h2 : seq ≠ [])
      rw [List.destutter_cons', destutter_length_runs]
    · rw [hexp]
      congr 1
      push_cast
      ring
  · have hfalse : (QuantumStateAnalyzer.runs_test alternatingTwenty).isDegenerate = false := by
      decide
    intro h
    rw [h] at hfalse
    exact Bool.noConfusion hfalse
  · have htrue : (QuantumStateAnalyzer.runs_test (List.replicate 20 1)).isDegenerate = true := by
      decide
    exact (RunsTestResult.isDegenerate_iff _).mp htrue

/-- C8 witness: the alternating length-20 sequence satisfies the
hypotheses, and there the observed runs are 20. -/
theorem C8_runs_test_classification_witness :
    2 ≤ alternatingTwenty.length ∧
    (∀ x ∈ alternatingTwenty, x = 0 ∨ x = 1) ∧
    (QuantumStateAnalyzer.runs_test alternatingTwenty).observed = some 20 :=
  ⟨by decide, by decide,
    (C8_runs_test_classification alternatingTwenty (by decide) (by decide)).2.2.1⟩
